import Mathlib

/-!
Verification development for the `client-side-prover` repository.

The development shallowly embeds the parts of the code the claims below are
about:

* the little-endian byte helpers and the two field encodings of
  `frontend/src/noir.rs` (`convert_to_acir_field` / `convert_to_halo2_field`);
* the `FastSerde` byte container of `src/fast_serde.rs` and its
  `CommitmentKey` instantiation from `prover/src/provider/pedersen.rs`;
* the arity assertion at the head of `NoirProgram::synthesize` in
  `frontend/src/noir.rs`;
* the `RecursiveSNARK` state machine of `prover/src/cyclefold/snark.rs`
  (`new` / `prove_step` / `verify`), with the external cryptographic
  subroutines (NIFS proving, circuit synthesis, random-oracle hashing,
  satisfiability checking) abstracted as oracle inputs, faithful to the
  control flow and mutation order of the Rust code;
* a relaxed-R1CS / NIFS folding layer modelled from the specification, since
  `cyclefold/nifs.rs` and `r1cs.rs` are not among the provided sources.

Definitions come first, then all theorems.
-/

/- ================================================================
   Little-endian byte encodings
   ================================================================ -/

/-- Little-endian byte list (`k` bytes) of a natural number, as produced by the
fixed-width encoders used in the code (`u32::to_le_bytes`, the field element
`to_bytes`).  A value too large for `k` bytes is truncated modulo `256 ^ k`,
matching the Rust `as u32` cast semantics. -/
def natToLeBytes : Nat → Nat → List Nat
  | 0, _ => []
  | k + 1, n => n % 256 :: natToLeBytes k (n / 256)

/-- Value of a little-endian byte list, as read by `u32::from_le_bytes` and the
little-endian field decoders. -/
def leBytesToNat : List Nat → Nat
  | [] => 0
  | b :: bs => b + 256 * leBytesToNat bs

/- ================================================================
   Field encodings of `frontend/src/noir.rs`
   ================================================================ -/

/-- Scalar-field modulus of the BN254 curve: the common modulus of
`F<G1>` (halo2curves `bn256::Fr`) and of the ACIR field `ark_bn254::Fr`
used in `frontend/src/noir.rs`. -/
def bn254r : Nat :=
  21888242871839275222246405745257275088548364400416034343698204186575808495617

instance : NeZero bn254r := ⟨by norm_num [bn254r]⟩

/-- `F::<G1>::to_bytes`: canonical little-endian 32-byte encoding of a field
element of the proving curve's scalar field. -/
def halo2ToBytes (f : ZMod bn254r) : List Nat := natToLeBytes 32 f.val

/-- `GenericFieldElement::<Fr>::to_be_bytes`: canonical big-endian 32-byte
encoding of an ACIR field element. -/
def acirToBeBytes (g : ZMod bn254r) : List Nat := (natToLeBytes 32 g.val).reverse

/-- `GenericFieldElement::<Fr>::from_be_bytes_reduce`: interpret big-endian
bytes as an integer and reduce it modulo the field modulus. -/
def fromBeBytesReduce (bs : List Nat) : ZMod bn254r :=
  (leBytesToNat bs.reverse : ZMod bn254r)

/-- `F::<G1>::from_repr`: interpret a 32-byte little-endian encoding, returning
`none` when the value is not a canonical representative (at least the
modulus). -/
def halo2FromRepr (bs : List Nat) : Option (ZMod bn254r) :=
  if leBytesToNat bs < bn254r then some ((leBytesToNat bs : Nat) : ZMod bn254r)
  else none

/-- `convert_to_acir_field` in `frontend/src/noir.rs`: take the little-endian
bytes of `f`, reverse them to big-endian, and rebuild an ACIR field element
with `from_be_bytes_reduce`. -/
def convert_to_acir_field (f : ZMod bn254r) : ZMod bn254r :=
  fromBeBytesReduce (halo2ToBytes f).reverse

/-- `convert_to_halo2_field` in `frontend/src/noir.rs`: take the big-endian
bytes of `g`, keep the first 32, reverse them to little-endian, and decode
through `from_repr` (the Rust code unwraps the option; the model keeps it so
that success is part of the statement). -/
def convert_to_halo2_field (g : ZMod bn254r) : Option (ZMod bn254r) :=
  halo2FromRepr ((acirToBeBytes g).take 32).reverse

/- ================================================================
   `src/fast_serde.rs` — the byte container format
   ================================================================ -/

/-- `MAGIC_NUMBER` from `src/fast_serde.rs`. -/
def MAGIC_NUMBER : List Nat := [0x50, 0x4C, 0x55, 0x54]

/-- `SerdeByteError` from `src/fast_serde.rs` (payloads dropped; the decoder
distinguishes errors only by constructor). -/
inductive SerdeByteError where
  | InvalidMagicNumber
  | InvalidSerdeType
  | InvalidSectionCount
  | InvalidSectionType
  | InvalidSectionSize
  | IoError
  | G1DecodeError
  | G2DecodeError
deriving DecidableEq, Repr

/-- `Cursor::read_exact` over a byte list: succeed with the `k` bytes starting
at `pos` and the advanced position, or fail with an I/O error when fewer than
`k` bytes remain. -/
def readExact (bytes : List Nat) (pos k : Nat) :
    Except SerdeByteError (List Nat × Nat) :=
  if pos + k ≤ bytes.length then .ok ((bytes.drop pos).take k, pos + k)
  else .error .IoError

/-- `FastSerde::validate_header`: read and check the 4-byte magic number, the
1-byte serde type and the 1-byte section count, in that order, each mismatch
reported as its own error.  Returns the cursor position after the header. -/
def validate_header (bytes : List Nat) (expectedType expectedSections : Nat) :
    Except SerdeByteError Nat :=
  match readExact bytes 0 4 with
  | .error e => .error e
  | .ok (magic, pos1) =>
    if magic ≠ MAGIC_NUMBER then .error .InvalidMagicNumber
    else
      match readExact bytes pos1 1 with
      | .error e => .error e
      | .ok (st, pos2) =>
        if st ≠ [expectedType] then .error .InvalidSerdeType
        else
          match readExact bytes pos2 1 with
          | .error e => .error e
          | .ok (ns, pos3) =>
            if ns ≠ [expectedSections] then .error .InvalidSectionCount
            else .ok pos3

/-- `FastSerde::read_section_bytes`: read the 1-byte section type, the 4-byte
little-endian section length, and then exactly that many bytes of section
data. -/
def read_section_bytes (bytes : List Nat) (pos expectedType : Nat) :
    Except SerdeByteError (List Nat × Nat) :=
  match readExact bytes pos 1 with
  | .error e => .error e
  | .ok (st, pos1) =>
    if st ≠ [expectedType] then .error .InvalidSectionType
    else
      match readExact bytes pos1 4 with
      | .error e => .error e
      | .ok (sz, pos2) => readExact bytes pos2 (leBytesToNat sz)

/-- `FastSerde::write_section_bytes`: the 1-byte section type, the 4-byte
little-endian length of the data (`data.len() as u32`, hence truncated modulo
`2 ^ 32`, exactly as `natToLeBytes 4` truncates), then the raw data. -/
def write_section_bytes (sectionType : Nat) (data : List Nat) : List Nat :=
  sectionType :: natToLeBytes 4 data.length ++ data

/- ================================================================
   `CommitmentKey` serialization from `prover/src/provider/pedersen.rs`
   ================================================================ -/

/-- Fixed-width raw byte codec for affine group elements, the
`halo2curves::serde::SerdeObject` interface used by the `CommitmentKey`
`FastSerde` implementation.  The curve is an opaque external primitive; the
codec laws recorded here are the documented properties of `to_raw_bytes` /
`from_raw_bytes`: encodings have a fixed positive width, decoding inverts
encoding, and decoding rejects input of the wrong width. -/
structure PointCodec (P : Type) where
  rawLen : Nat
  toRaw : P → List Nat
  fromRaw : List Nat → Option P
  rawLen_pos : 0 < rawLen
  toRaw_length : ∀ p, (toRaw p).length = rawLen
  fromRaw_toRaw : ∀ p, fromRaw (toRaw p) = some p
  fromRaw_length : ∀ bs, bs.length ≠ rawLen → fromRaw bs = none

/-- Concatenation of the raw encodings of a list of points, as produced by
`self.ck.iter().flat_map(|p| p.to_raw_bytes()).collect()`. -/
def concatRaw {P : Type} (c : PointCodec P) : List P → List Nat
  | [] => []
  | p :: ps => c.toRaw p ++ concatRaw c ps

/-- `slice::chunks`: split a byte list into consecutive chunks of `L` bytes,
the final chunk possibly shorter.  (`L = 0` is unreachable here because
`rawLen_pos` holds for every codec.) -/
def chunksOf (L : Nat) (bs : List Nat) : List (List Nat) :=
  if h : bs = [] ∨ L = 0 then []
  else bs.take L :: chunksOf L (bs.drop L)
termination_by bs.length
decreasing_by
  push_neg at h
  have hbs : bs.length ≠ 0 := by simpa [List.length_eq_zero] using h.1
  simp only [List.length_drop]
  omega

/-- Chunkwise decoding, as in `CommitmentKey::from_bytes`: each chunk is
decoded with `from_raw_bytes`, a failing chunk aborting with
`G1DecodeError`. -/
def decodeChunks {P : Type} (c : PointCodec P) :
    List (List Nat) → Except SerdeByteError (List P)
  | [] => .ok []
  | ch :: rest =>
    match c.fromRaw ch with
    | none => .error .G1DecodeError
    | some p =>
      match decodeChunks c rest with
      | .error e => .error e
      | .ok ps => .ok (p :: ps)

/-- `CommitmentKey::to_bytes` from `prover/src/provider/pedersen.rs`: the magic
number, the `CommitmentKey` type tag `0x03`, the section count `1`, then one
section of type `1` holding the concatenated raw encodings of the
generators. -/
def commitmentKeyToBytes {P : Type} (c : PointCodec P) (ck : List P) :
    List Nat :=
  MAGIC_NUMBER ++ 0x03 :: 0x01 :: write_section_bytes 1 (concatRaw c ck)

/-- `CommitmentKey::from_bytes` from `prover/src/provider/pedersen.rs`:
validate the header (type `CommitmentKey = 0x03`, one section), read the
single section of type `1`, and decode its data in fixed-width chunks. -/
def commitmentKeyFromBytes {P : Type} (c : PointCodec P) (bytes : List Nat) :
    Except SerdeByteError (List P) :=
  match validate_header bytes 0x03 1 with
  | .error e => .error e
  | .ok pos =>
    match read_section_bytes bytes pos 1 with
    | .error e => .error e
    | .ok (data, _) => decodeChunks c (chunksOf c.rawLen data)

/-- Concrete one-byte point codec used to instantiate the byte-format theorems
on explicit inputs. -/
def byteCodec : PointCodec (Fin 256) where
  rawLen := 1
  toRaw p := [p.val]
  fromRaw bs :=
    match bs with
    | [a] => if h : a < 256 then some ⟨a, h⟩ else none
    | _ => none
  rawLen_pos := Nat.one_pos
  toRaw_length p := rfl
  fromRaw_toRaw p := by
    cases p with
    | mk v hv => simp [hv]
  fromRaw_length bs h := by
    match bs with
    | [] => rfl
    | [a] => exact absurd rfl h
    | a :: b :: t => rfl

/-- Concrete two-byte point codec (second byte always zero), used to
instantiate the byte-format theorems where a raw width larger than one is
needed. -/
def pairCodec : PointCodec (Fin 256) where
  rawLen := 2
  toRaw p := [p.val, 0]
  fromRaw bs :=
    match bs with
    | [a, b] => if h : a < 256 ∧ b = 0 then some ⟨a, h.1⟩ else none
    | _ => none
  rawLen_pos := by norm_num
  toRaw_length p := rfl
  fromRaw_toRaw p := by
    cases p with
    | mk v hv => simp [hv]
  fromRaw_length bs h := by
    match bs with
    | [] => rfl
    | [a] => rfl
    | [a, b] => exact absurd rfl h
    | a :: b :: c :: t => rfl

/- ================================================================
   Arity assertion of `NoirProgram::synthesize` (`frontend/src/noir.rs`)
   ================================================================ -/

/-- Outcome of a circuit synthesis call, distinguishing a Rust panic (fatal
process abort, as raised by `assert_eq!`) from a returned `Result` (the
recoverable `SynthesisError` path). -/
inductive SynthesisOutcome (A : Type) where
  | panicked
  | result (r : Except Unit A)

/-- Counts of the declared parts of a Noir circuit, as read from the ACIR
program in `NoirProgram::synthesize` (`self.circuit().return_values`,
`public_parameters`, `private_parameters`). -/
structure NoirCircuitShape where
  returnValuesCount : Nat
  publicParametersCount : Nat
  privateParametersCount : Nat

/-- Rust release-mode `usize` subtraction of one: wraps modulo `2 ^ 64`, so
`0 - 1` gives `2 ^ 64 - 1` (in debug mode the same expression aborts with an
overflow panic, which the mismatch theorem also covers because the wrapped
value can never equal a valid vector length). -/
def usizeWrapSub1 (n : Nat) : Nat := (n + (2 ^ 64 - 1)) % 2 ^ 64

/-- Head of `NoirProgram::synthesize` from `frontend/src/noir.rs`: the
statement `assert_eq!(self.circuit().return_values.0.len() - 1,
self.circuit().public_parameters.0.len())` runs before any witness allocation
or gate processing; when the compared counts differ the call panics, otherwise
it proceeds with the remainder of synthesis (abstracted as `rest`). -/
def NoirProgram.synthesizeModel {A : Type} (prog : NoirCircuitShape)
    (rest : SynthesisOutcome A) : SynthesisOutcome A :=
  if usizeWrapSub1 prog.returnValuesCount = prog.publicParametersCount
  then rest
  else .panicked

/- ================================================================
   `RecursiveSNARK` state machine (`prover/src/cyclefold/snark.rs`)
   ================================================================ -/

/-- `NovaError` variants observable through the `RecursiveSNARK` interface
(`errors.rs` is external; the constructors here are the ones named in
`prover/src/cyclefold/snark.rs` and in the specification). -/
inductive NovaError where
  | InvalidInitialInputLength
  | UnSat
  | UnSatIndex (i : Nat)
  | DecompressionError
  | ProofVerifyError
  | SynthesisIncomplete
deriving DecidableEq, Repr

deriving instance DecidableEq for Except

/-- `RecursiveSNARK` from `prover/src/cyclefold/snark.rs`: the per-step state.
The instance/witness/buffer payloads are opaque type parameters, since the
claims about this structure concern which fields change and when. -/
structure RecursiveSNARK (F RWp RUp LWp LUp RWc RUc BufP BufC : Type) where
  z0_primary : List F
  r_W_primary : RWp
  r_U_primary : RUp
  l_w_primary : LWp
  l_u_primary : LUp
  r_W_cyclefold : RWc
  r_U_cyclefold : RUc
  buffer_primary : BufP
  buffer_cyclefold : BufC
  i : Nat
  zi_primary : List F

/-- Results of the eleven fallible sub-computations of
`RecursiveSNARK::prove_step`, in source order: `PrimaryNIFS::prove`, the
`comm_T` decompression, the CycleFold-E instance extraction (whose error the
code replaces with `UnSat`), `CycleFoldNIFS::prove` for E, the `comm_T_E`
decompression, the CycleFold-W instance extraction (error replaced with
`UnSat`), `CycleFoldNIFS::prove` for W, the `comm_T_W` decompression, the
primary circuit synthesis, the primary instance extraction (error replaced
with `UnSat`), and the `zi` value collection.  They are oracle inputs to the
model; the theorems hold for every outcome. -/
structure ProveStepOracles (F RWp RUp LWp LUp RWc RUc : Type) where
  nifsPrimary : Except NovaError (RUp × RWp)
  decompT : Except NovaError Unit
  instE : Option Unit
  nifsCycleE : Except NovaError (RUc × RWc)
  decompTE : Except NovaError Unit
  instW : Option Unit
  nifsCycleW : Except NovaError (RUc × RWc)
  decompTW : Except NovaError Unit
  synth : Except NovaError Unit
  instPrimary : Option (LUp × LWp)
  ziCollect : Except NovaError (List F)

/-- `RecursiveSNARK::prove_step` from `prover/src/cyclefold/snark.rs`: on
`i = 0` it sets `i := 1` and returns at once; otherwise it runs the fallible
sub-computations in order, returning the current (unmodified) state on every
early `?` return, and only after the last fallible step succeeds does it
assign the new field values and increment `i` — mirroring the mutation order
of the Rust code, where all `self.…` assignments are after the last `?`. -/
def RecursiveSNARK.prove_step {F RWp RUp LWp LUp RWc RUc BufP BufC : Type}
    (s : RecursiveSNARK F RWp RUp LWp LUp RWc RUc BufP BufC)
    (o : ProveStepOracles F RWp RUp LWp LUp RWc RUc) :
    Except NovaError Unit × RecursiveSNARK F RWp RUp LWp LUp RWc RUc BufP BufC :=
  if s.i = 0 then (.ok (), { s with i := 1 })
  else
    match o.nifsPrimary with
    | .error e => (.error e, s)
    | .ok (rU', rW') =>
      match o.decompT with
      | .error e => (.error e, s)
      | .ok _ =>
        match o.instE with
        | none => (.error .UnSat, s)
        | some _ =>
          match o.nifsCycleE with
          | .error e => (.error e, s)
          | .ok (_, _) =>
            match o.decompTE with
            | .error e => (.error e, s)
            | .ok _ =>
              match o.instW with
              | none => (.error .UnSat, s)
              | some _ =>
                match o.nifsCycleW with
                | .error e => (.error e, s)
                | .ok (rUcW, rWcW) =>
                  match o.decompTW with
                  | .error e => (.error e, s)
                  | .ok _ =>
                    match o.synth with
                    | .error e => (.error e, s)
                    | .ok _ =>
                      match o.instPrimary with
                      | none => (.error .UnSat, s)
                      | some (lU', lW') =>
                        match o.ziCollect with
                        | .error e => (.error e, s)
                        | .ok zi' =>
                          (.ok (),
                            { s with
                              zi_primary := zi'
                              r_U_primary := rU'
                              r_W_primary := rW'
                              l_u_primary := lU'
                              l_w_primary := lW'
                              r_U_cyclefold := rUcW
                              r_W_cyclefold := rWcW
                              i := s.i + 1 })

/-- Results and payloads of the sub-computations of `RecursiveSNARK::new`:
the default relaxed instances/witnesses, the primary circuit synthesis, the
primary instance extraction, the `zi` collection and the freshly allocated
resource buffers. -/
structure NewOracles (F RWp RUp LWp LUp RWc RUc BufP BufC : Type) where
  rUcDefault : RUc
  rWcDefault : RWc
  synth : Except NovaError Unit
  instPrimary : Except NovaError (LUp × LWp)
  rUpDefault : RUp
  rWpDefault : RWp
  ziCollect : Except NovaError (List F)
  bufP : BufP
  bufC : BufC

/-- `RecursiveSNARK::new` from `prover/src/cyclefold/snark.rs`: reject an
initial input whose length differs from the declared arity, then run the
fallible sub-computations in order and build the initial state with step
counter `i = 0`. -/
def RecursiveSNARK.new {F RWp RUp LWp LUp RWc RUc BufP BufC : Type}
    (F_arity_primary : Nat) (z0_primary : List F)
    (o : NewOracles F RWp RUp LWp LUp RWc RUc BufP BufC) :
    Except NovaError (RecursiveSNARK F RWp RUp LWp LUp RWc RUc BufP BufC) :=
  if z0_primary.length ≠ F_arity_primary then .error .InvalidInitialInputLength
  else
    match o.synth with
    | .error e => .error e
    | .ok _ =>
      match o.instPrimary with
      | .error e => .error e
      | .ok (lU, lW) =>
        match o.ziCollect with
        | .error e => .error e
        | .ok zi =>
          .ok
            { z0_primary := z0_primary
              r_W_primary := o.rWpDefault
              r_U_primary := o.rUpDefault
              l_w_primary := lW
              l_u_primary := lU
              r_W_cyclefold := o.rWcDefault
              r_U_cyclefold := o.rUcDefault
              buffer_primary := o.bufP
              buffer_cyclefold := o.bufC
              i := 0
              zi_primary := zi }

/-- Outcome of `RecursiveSNARK::verify`: a Rust panic (out-of-bounds index on
`l_u_primary.X`), an error, or the returned output vector. -/
inductive VerifyOutcome (F : Type) where
  | panicked
  | err (e : NovaError)
  | ok (zi : List F)
deriving DecidableEq, Repr

/-- `RecursiveSNARK::verify` from `prover/src/cyclefold/snark.rs`.  The four
early checks (`num_steps == 0`, step-count mismatch, `z0` mismatch, public-IO
arity of the running relaxed primary instance) are combined into one
`ProofVerifyError` return, as in the code.  The two recomputed random-oracle
hashes are oracle inputs (`hash_primary`, `hash_cyclefold`), compared against
`l_u_primary.X[0]` and `X[1]` with the short-circuit order of the Rust `||`;
an out-of-range index is a panic.  The three satisfiability results are oracle
inputs whose errors are propagated unchanged by the `?` operators. -/
def RecursiveSNARK.verify {F RWp RUp LWp LUp RWc RUc BufP BufC : Type}
    [DecidableEq F]
    (X_rU : RUp → List F) (X_lU : LUp → List F)
    (s : RecursiveSNARK F RWp RUp LWp LUp RWc RUc BufP BufC)
    (num_steps : Nat) (z0_primary : List F)
    (hash_primary hash_cyclefold : F)
    (res_r_primary res_l_primary res_r_cyclefold : Except NovaError Unit) :
    VerifyOutcome F :=
  if num_steps = 0 ∨ s.i ≠ num_steps ∨ s.z0_primary ≠ z0_primary
      ∨ (X_rU s.r_U_primary).length ≠ 2 then
    .err .ProofVerifyError
  else
    match (X_lU s.l_u_primary).get? 0 with
    | none => .panicked
    | some x0 =>
      if hash_primary ≠ x0 then .err .ProofVerifyError
      else
        match (X_lU s.l_u_primary).get? 1 with
        | none => .panicked
        | some x1 =>
          if hash_cyclefold ≠ x1 then .err .ProofVerifyError
          else
            match res_r_primary with
            | .error e => .err e
            | .ok _ =>
              match res_l_primary with
              | .error e => .err e
              | .ok _ =>
                match res_r_cyclefold with
                | .error e => .err e
                | .ok _ => .ok s.zi_primary

/- ================================================================
   Relaxed R1CS and NIFS folding, modelled from the specification
   ================================================================ -/

/-- Modelled from the spec: an R1CS shape (spec section 3) — the three sparse
matrices `A`, `B`, `C` over the field, acting on the full assignment vector
`z = (W, u, X)` (witness variables, the relaxation scalar slot, public IO).
The source file `r1cs.rs` is not among the provided sources; this definition
follows the specification's data model. -/
structure R1CSShapeM (F μ ι κ : Type) where
  A : Matrix μ (ι ⊕ (Unit ⊕ κ)) F
  B : Matrix μ (ι ⊕ (Unit ⊕ κ)) F
  C : Matrix μ (ι ⊕ (Unit ⊕ κ)) F

/-- Modelled from the spec: the full assignment vector `z = (W, u, X)`; a
non-relaxed instance uses `u = 1`. -/
def zVec {F ι κ : Type} (W : ι → F) (u : F) (X : κ → F) :
    ι ⊕ (Unit ⊕ κ) → F :=
  Sum.elim W (Sum.elim (fun _ => u) X)

/-- Modelled from the spec: homomorphic vector commitment against an ordered
sequence of group generators (spec section 4.3); the group is an opaque
module over the scalar field. -/
def commit {F G ν : Type} [Fintype ν] [AddCommMonoid G] [SMul F G]
    (ck : ν → G) (v : ν → F) : G :=
  ∑ j, v j • ck j

/-- Modelled from the spec: `RelaxedR1CSInstance` — commitments to the witness
and error vectors, the public IO `X`, and the relaxation scalar `u`. -/
structure RelaxedR1CSInstanceM (F G κ : Type) where
  comm_W : G
  comm_E : G
  X : κ → F
  u : F

/-- Modelled from the spec: `RelaxedR1CSWitness` — the witness vector and the
error vector. -/
structure RelaxedR1CSWitnessM (F ι μ : Type) where
  W : ι → F
  E : μ → F

/-- Modelled from the spec: `R1CSInstance` — witness commitment and public
IO. -/
structure R1CSInstanceM (F G κ : Type) where
  comm_W : G
  X : κ → F

/-- Modelled from the spec: `R1CSWitness` — the witness vector. -/
structure R1CSWitnessM (F ι : Type) where
  W : ι → F

/-- Modelled from the spec: `is_sat_relaxed` (spec section 4.1) — the relaxed
relation `(Az) ∘ (Bz) = u · (Cz) + E` with `z = (W, u, X)`, together with
consistency of `comm_W` and `comm_E` with the committed vectors. -/
def relaxedSat {F G μ ι κ : Type} [Field F] [AddCommGroup G] [Module F G]
    [Fintype μ] [Fintype ι] [Fintype κ]
    (S : R1CSShapeM F μ ι κ) (ckW : ι → G) (ckE : μ → G)
    (U : RelaxedR1CSInstanceM F G κ) (W : RelaxedR1CSWitnessM F ι μ) : Prop :=
  (∀ i : μ,
      S.A.mulVec (zVec W.W U.u U.X) i * S.B.mulVec (zVec W.W U.u U.X) i
        = U.u * S.C.mulVec (zVec W.W U.u U.X) i + W.E i)
  ∧ U.comm_W = commit ckW W.W ∧ U.comm_E = commit ckE W.E

/-- Modelled from the spec: `is_sat` (spec section 4.1) — the exact relation
`(Az) ∘ (Bz) = Cz` with `z = (W, 1, X)` plus `comm_W` consistency. -/
def exactSat {F G μ ι κ : Type} [Field F] [AddCommGroup G] [Module F G]
    [Fintype μ] [Fintype ι] [Fintype κ]
    (S : R1CSShapeM F μ ι κ) (ckW : ι → G)
    (U : R1CSInstanceM F G κ) (W : R1CSWitnessM F ι) : Prop :=
  (∀ i : μ,
      S.A.mulVec (zVec W.W 1 U.X) i * S.B.mulVec (zVec W.W 1 U.X) i
        = S.C.mulVec (zVec W.W 1 U.X) i)
  ∧ U.comm_W = commit ckW W.W

/-- Modelled from the spec: the NIFS cross-term vector `T` (spec section 4.2
step 1 and the glossary) — the extra algebraic term produced when folding the
running relaxed pair with a fresh exact pair. -/
def crossTermT {F G μ ι κ : Type} [Field F] [AddCommGroup G] [Module F G]
    [Fintype μ] [Fintype ι] [Fintype κ]
    (S : R1CSShapeM F μ ι κ)
    (U1 : RelaxedR1CSInstanceM F G κ) (W1 : RelaxedR1CSWitnessM F ι μ)
    (U2 : R1CSInstanceM F G κ) (W2 : R1CSWitnessM F ι) : μ → F :=
  fun i =>
    S.A.mulVec (zVec W1.W U1.u U1.X) i * S.B.mulVec (zVec W2.W 1 U2.X) i
      + S.A.mulVec (zVec W2.W 1 U2.X) i * S.B.mulVec (zVec W1.W U1.u U1.X) i
      - U1.u * S.C.mulVec (zVec W2.W 1 U2.X) i
      - S.C.mulVec (zVec W1.W U1.u U1.X) i

/-- Modelled from the spec: `NIFS::prove` folding (spec section 4.2 step 3):
`U' = r_U + r · l_u` componentwise on `X`, on the commitments through the
group homomorphism with `comm_E' = r_U.comm_E + r · comm_T`, `u' = r_U.u + r`,
and the analogous witness folding `W' = W + r · w`, `E' = E + r · T`.  The
Fiat–Shamir challenge `r` is a function of public data only and enters here as
a parameter, so the folding theorems hold for every challenge.  The same
algorithm serves both the `PrimaryNIFS` and the `CycleFoldNIFS`
instantiation, which differ only in their type parameters. -/
def NIFS.prove {F G μ ι κ : Type} [Field F] [AddCommGroup G] [Module F G]
    [Fintype μ] [Fintype ι] [Fintype κ]
    (S : R1CSShapeM F μ ι κ) (ckE : μ → G)
    (U1 : RelaxedR1CSInstanceM F G κ) (W1 : RelaxedR1CSWitnessM F ι μ)
    (U2 : R1CSInstanceM F G κ) (W2 : R1CSWitnessM F ι) (r : F) :
    RelaxedR1CSInstanceM F G κ × RelaxedR1CSWitnessM F ι μ :=
  ({ comm_W := U1.comm_W + r • U2.comm_W
     comm_E := U1.comm_E + r • commit ckE (crossTermT S U1 W1 U2 W2)
     X := fun k => U1.X k + r * U2.X k
     u := U1.u + r },
   { W := fun j => W1.W j + r * W2.W j
     E := fun i => W1.E i + r * crossTermT S U1 W1 U2 W2 i })

instance : Fact (Nat.Prime 2) := ⟨Nat.prime_two⟩

/-- Trivial concrete shape over `ZMod 2` used to instantiate the folding
soundness theorem on explicit inputs. -/
def trivialShapeC1 : R1CSShapeM (ZMod 2) (Fin 1) (Fin 1) (Fin 1) := ⟨0, 0, 0⟩

/-- Concrete witness commitment key for the folding witness instance. -/
def trivialCkW : Fin 1 → ZMod 2 := fun _ => 1

/-- Concrete error commitment key for the folding witness instance. -/
def trivialCkE : Fin 1 → ZMod 2 := fun _ => 1

/-- Concrete satisfying relaxed instance (the trivial/default one). -/
def trivialRU : RelaxedR1CSInstanceM (ZMod 2) (ZMod 2) (Fin 1) :=
  ⟨0, 0, fun _ => 0, 0⟩

/-- Concrete satisfying relaxed witness (the trivial/default one). -/
def trivialRW : RelaxedR1CSWitnessM (ZMod 2) (Fin 1) (Fin 1) :=
  ⟨fun _ => 0, fun _ => 0⟩

/-- Concrete satisfying exact instance. -/
def trivialLU : R1CSInstanceM (ZMod 2) (ZMod 2) (Fin 1) := ⟨0, fun _ => 0⟩

/-- Concrete satisfying exact witness. -/
def trivialLW : R1CSWitnessM (ZMod 2) (Fin 1) := ⟨fun _ => 0⟩

/- ================================================================
   Theorems — byte encodings and the field round-trip (C6)
   ================================================================ -/

theorem length_natToLeBytes (k n : Nat) : (natToLeBytes k n).length = k := by
  induction k generalizing n with
  | zero => rfl
  | succ k ih => simp [natToLeBytes, ih]

theorem leBytesToNat_natToLeBytes (k n : Nat) (h : n < 256 ^ k) :
    leBytesToNat (natToLeBytes k n) = n := by
  induction k generalizing n with
  | zero => simp [natToLeBytes, leBytesToNat]; omega
  | succ k ih =>
      have hdiv : n / 256 < 256 ^ k := by
        rw [Nat.div_lt_iff_lt_mul (by norm_num)]
        calc n < 256 ^ (k + 1) := h
        _ = 256 ^ k * 256 := by ring
      simp only [natToLeBytes, leBytesToNat, ih (n / 256) hdiv]
      omega

theorem bn254r_lt_pow : bn254r < 256 ^ 32 := by norm_num [bn254r]

/-- C6: for every field element `f` of the proving curve's scalar field,
including `0` and `modulus - 1`, converting it to the ACIR big-endian
representation and back (`convert_to_halo2_field (convert_to_acir_field f)`)
returns exactly `f`. -/
theorem convert_field_round_trip (f : ZMod bn254r) :
    convert_to_halo2_field (convert_to_acir_field f) = some f := by
  have hval : f.val < bn254r := ZMod.val_lt f
  have hlt : f.val < 256 ^ 32 := lt_trans hval bn254r_lt_pow
  have hacir : convert_to_acir_field f = f := by
    simp only [convert_to_acir_field, fromBeBytesReduce, halo2ToBytes,
      List.reverse_reverse, leBytesToNat_natToLeBytes 32 f.val hlt]
    exact ZMod.natCast_rightInverse f
  rw [hacir]
  have hlen : (natToLeBytes 32 f.val).reverse.length = 32 := by
    simp [length_natToLeBytes]
  simp only [convert_to_halo2_field, acirToBeBytes,
    List.take_of_length_le (le_of_eq hlen), List.reverse_reverse,
    halo2FromRepr, leBytesToNat_natToLeBytes 32 f.val hlt, if_pos hval]
  rw [ZMod.natCast_rightInverse f]

/- ================================================================
   Theorems — commitment-key byte format (C7, C8)
   ================================================================ -/

theorem length_concatRaw {P : Type} (c : PointCodec P) (ck : List P) :
    (concatRaw c ck).length = ck.length * c.rawLen := by
  induction ck with
  | nil => simp [concatRaw]
  | cons p ps ih => simp [concatRaw, ih, c.toRaw_length p]; ring

theorem fromBytes_layout {P : Type} (c : PointCodec P) (data : List Nat)
    (hsize : data.length < 2 ^ 32) :
    commitmentKeyFromBytes c
        (MAGIC_NUMBER ++ 3 :: 1 :: 1 :: (natToLeBytes 4 data.length ++ data))
      = decodeChunks c (chunksOf c.rawLen data) := by
  set B : List Nat :=
    MAGIC_NUMBER ++ 3 :: 1 :: 1 :: (natToLeBytes 4 data.length ++ data)
    with hB
  have hlen4 : (natToLeBytes 4 data.length).length = 4 := length_natToLeBytes 4 _
  have hlen : B.length = 11 + data.length := by
    rw [hB]; simp [MAGIC_NUMBER, hlen4]; omega
  have h1 : readExact B 0 4 = .ok (MAGIC_NUMBER, 4) := by
    rw [readExact, if_pos (by omega)]; rw [hB]; rfl
  have h2 : readExact B 4 1 = .ok ([3], 5) := by
    rw [readExact, if_pos (by omega)]; rw [hB]; rfl
  have h3 : readExact B 5 1 = .ok ([1], 6) := by
    rw [readExact, if_pos (by omega)]; rw [hB]; rfl
  have h4 : readExact B 6 1 = .ok ([1], 7) := by
    rw [readExact, if_pos (by omega)]; rw [hB]; rfl
  have h5 : readExact B 7 4 = .ok (natToLeBytes 4 data.length, 11) := by
    rw [readExact, if_pos (by omega)]
    have hdrop : B.drop 7 = natToLeBytes 4 data.length ++ data := by
      rw [hB]; rfl
    rw [hdrop, List.take_left' hlen4]
  have h6 : readExact B 11 data.length = .ok (data, 11 + data.length) := by
    rw [readExact, if_pos (by omega)]
    have hdrop : B.drop 11 = (natToLeBytes 4 data.length ++ data).drop 4 := by
      rw [hB]; rfl
    rw [hdrop, List.drop_left' hlen4, List.take_length]
  have hsz : leBytesToNat (natToLeBytes 4 data.length) = data.length :=
    leBytesToNat_natToLeBytes 4 _ (by norm_num at hsize ⊢; omega)
  have hvh : validate_header B 3 1 = .ok 6 := by
    simp only [validate_header, h1, h2, h3]
    norm_num
  have hrs : read_section_bytes B 6 1 = .ok (data, 11 + data.length) := by
    simp only [read_section_bytes, h4, h5, h6, hsz]
    norm_num
  simp only [commitmentKeyFromBytes, hvh, hrs]

theorem decodeChunks_concatRaw {P : Type} (c : PointCodec P) (ck : List P) :
    decodeChunks c (chunksOf c.rawLen (concatRaw c ck)) = .ok ck := by
  induction ck with
  | nil => rw [concatRaw, chunksOf]; simp [decodeChunks]
  | cons p ps ih =>
      have hlen : (c.toRaw p).length = c.rawLen := c.toRaw_length p
      have hne : c.toRaw p ++ concatRaw c ps ≠ [] := by
        intro hcontra
        have h0 := congrArg List.length hcontra
        simp [hlen] at h0
        exact absurd h0.1 (by have := c.rawLen_pos; omega)
      rw [concatRaw, chunksOf,
        dif_neg (by push_neg; exact ⟨hne, by have := c.rawLen_pos; omega⟩)]
      rw [List.take_left' hlen, List.drop_left' hlen]
      simp [decodeChunks, c.fromRaw_toRaw p, ih]

theorem decodeChunks_uneven {P : Type} (c : PointCodec P) (data : List Nat)
    (hmod : data.length % c.rawLen ≠ 0) :
    decodeChunks c (chunksOf c.rawLen data) = .error .G1DecodeError := by
  have hL : 0 < c.rawLen := c.rawLen_pos
  suffices H : ∀ n (data : List Nat), data.length = n →
      data.length % c.rawLen ≠ 0 →
      decodeChunks c (chunksOf c.rawLen data) = .error .G1DecodeError from
    H _ data rfl hmod
  intro n
  induction n using Nat.strong_induction_on with
  | _ n ih =>
    intro data hlen hmod
    have hne : data ≠ [] := by
      intro h; subst h; simp at hmod
    rw [chunksOf, dif_neg (by push_neg; exact ⟨hne, by omega⟩)]
    cases hfr : c.fromRaw (data.take c.rawLen) with
    | none => simp [decodeChunks, hfr]
    | some p =>
        have hge : c.rawLen ≤ data.length := by
          by_contra hlt
          push_neg at hlt
          have hth : (data.take c.rawLen).length ≠ c.rawLen := by
            simp [List.length_take]; omega
          rw [c.fromRaw_length _ hth] at hfr
          exact Option.noConfusion hfr
        have hmod2 : (data.drop c.rawLen).length % c.rawLen ≠ 0 := by
          rw [List.length_drop, ← Nat.mod_eq_sub_mod hge]
          exact hmod
        have hlt2 : (data.drop c.rawLen).length < n := by
          rw [List.length_drop]; omega
        have hrec := ih _ hlt2 (data.drop c.rawLen) rfl hmod2
        simp [decodeChunks, hfr, hrec]

theorem fromBytes_bad_magic {P : Type} (c : PointCodec P) (bytes : List Nat)
    (hlen : 4 ≤ bytes.length) (hmagic : bytes.take 4 ≠ MAGIC_NUMBER) :
    commitmentKeyFromBytes c bytes = .error .InvalidMagicNumber := by
  have h1 : readExact bytes 0 4 = .ok (bytes.take 4, 4) := by
    rw [readExact, if_pos (by omega)]
    rw [List.drop_zero]
  simp only [commitmentKeyFromBytes, validate_header, h1, if_pos hmagic]

theorem fromBytes_bad_type {P : Type} (c : PointCodec P) (b4 b5 : Nat)
    (rest : List Nat) (hb4 : b4 ≠ 3) :
    commitmentKeyFromBytes c (MAGIC_NUMBER ++ b4 :: b5 :: rest)
      = .error .InvalidSerdeType := by
  have h1 : readExact (MAGIC_NUMBER ++ b4 :: b5 :: rest) 0 4
      = .ok (MAGIC_NUMBER, 4) := by
    rw [readExact, if_pos (by simp [MAGIC_NUMBER])]
    rfl
  have h2 : readExact (MAGIC_NUMBER ++ b4 :: b5 :: rest) 4 1 = .ok ([b4], 5) := by
    rw [readExact, if_pos (by simp [MAGIC_NUMBER])]
    rfl
  simp only [commitmentKeyFromBytes, validate_header, h1, h2]
  rw [if_neg (by simp), if_pos (by simp [hb4])]

theorem fromBytes_bad_count {P : Type} (c : PointCodec P) (b5 : Nat)
    (rest : List Nat) (hb5 : b5 ≠ 1) :
    commitmentKeyFromBytes c (MAGIC_NUMBER ++ 3 :: b5 :: rest)
      = .error .InvalidSectionCount := by
  have h1 : readExact (MAGIC_NUMBER ++ 3 :: b5 :: rest) 0 4
      = .ok (MAGIC_NUMBER, 4) := by
    rw [readExact, if_pos (by simp [MAGIC_NUMBER])]
    rfl
  have h2 : readExact (MAGIC_NUMBER ++ 3 :: b5 :: rest) 4 1 = .ok ([3], 5) := by
    rw [readExact, if_pos (by simp [MAGIC_NUMBER])]
    rfl
  have h3 : readExact (MAGIC_NUMBER ++ 3 :: b5 :: rest) 5 1 = .ok ([b5], 6) := by
    rw [readExact, if_pos (by simp [MAGIC_NUMBER])]
    rfl
  simp only [commitmentKeyFromBytes, validate_header, h1, h2, h3]
  rw [if_neg (by simp), if_neg (by simp), if_pos (by simp [hb5])]

/-- C7: for every point codec and every commitment key `ck` — in particular of
length 1, a power-of-two length, and a non-power-of-two length — decoding the
encoding (`from_bytes (to_bytes ck)`) succeeds and returns a key equal to
`ck`.  The hypothesis bounds the raw data below `2 ^ 32` bytes, the range in
which the `data.len() as u32` length field of the wire format is exact. -/
theorem commitmentKey_bytes_round_trip {P : Type} (c : PointCodec P)
    (ck : List P) (hsize : ck.length * c.rawLen < 2 ^ 32) :
    commitmentKeyFromBytes c (commitmentKeyToBytes c ck) = .ok ck := by
  have hbytes : commitmentKeyToBytes c ck
      = MAGIC_NUMBER ++ 3 :: 1 :: 1 ::
        (natToLeBytes 4 (concatRaw c ck).length ++ concatRaw c ck) := rfl
  rw [hbytes, fromBytes_layout c _ (by rw [length_concatRaw]; exact hsize),
    decodeChunks_concatRaw]

/-- C7 witness: the round trip evaluated at keys of length 1, 2 (a power of
two) and 3 (not a power of two) over the concrete one-byte codec. -/
theorem commitmentKey_bytes_round_trip_witness :
    commitmentKeyFromBytes byteCodec
        (commitmentKeyToBytes byteCodec [(7 : Fin 256)]) = .ok [(7 : Fin 256)]
  ∧ commitmentKeyFromBytes byteCodec
        (commitmentKeyToBytes byteCodec [(0 : Fin 256), 1]) = .ok [0, 1]
  ∧ commitmentKeyFromBytes byteCodec
        (commitmentKeyToBytes byteCodec [(2 : Fin 256), 3, 4]) = .ok [2, 3, 4] :=
  ⟨commitmentKey_bytes_round_trip byteCodec _ (by norm_num [byteCodec]),
   commitmentKey_bytes_round_trip byteCodec _ (by norm_num [byteCodec]),
   commitmentKey_bytes_round_trip byteCodec _ (by norm_num [byteCodec])⟩

/-- C8: `CommitmentKey::from_bytes` validates the magic number, the type tag
and the section count, in that order and each with its own distinct error,
before reading any section length (the mismatch verdict depends only on the
six header bytes); an encoded section whose byte length does not split evenly
into the fixed raw width decodes to an error; and changing any single byte of
the 6-byte header of a valid encoding makes decoding fail. -/
theorem commitmentKey_fromBytes_validation {P : Type} (c : PointCodec P) :
    (∀ bytes : List Nat, 4 ≤ bytes.length → bytes.take 4 ≠ MAGIC_NUMBER →
        commitmentKeyFromBytes c bytes = .error .InvalidMagicNumber)
  ∧ (∀ (b4 b5 : Nat) (rest : List Nat), b4 ≠ 3 →
        commitmentKeyFromBytes c (MAGIC_NUMBER ++ b4 :: b5 :: rest)
          = .error .InvalidSerdeType)
  ∧ (∀ (b5 : Nat) (rest : List Nat), b5 ≠ 1 →
        commitmentKeyFromBytes c (MAGIC_NUMBER ++ 3 :: b5 :: rest)
          = .error .InvalidSectionCount)
  ∧ (∀ data : List Nat, data.length < 2 ^ 32 → data.length % c.rawLen ≠ 0 →
        commitmentKeyFromBytes c
            (MAGIC_NUMBER ++ 3 :: 1 :: 1 :: (natToLeBytes 4 data.length ++ data))
          = .error .G1DecodeError)
  ∧ (∀ (ck : List P) (i b : Nat), i < 6 →
        b ≠ (commitmentKeyToBytes c ck).getD i 0 →
        ∃ e, commitmentKeyFromBytes c ((commitmentKeyToBytes c ck).set i b)
          = .error e) := by
  refine ⟨fromBytes_bad_magic c, fromBytes_bad_type c, fromBytes_bad_count c,
    ?_, ?_⟩
  · intro data hsize hmod
    rw [fromBytes_layout c data hsize, decodeChunks_uneven c data hmod]
  · intro ck i b hi hb
    have hbytes : commitmentKeyToBytes c ck
        = 80 :: 76 :: 85 :: 84 :: 3 :: 1 :: 1 ::
          (natToLeBytes 4 (concatRaw c ck).length ++ concatRaw c ck) := rfl
    rw [hbytes] at hb ⊢
    interval_cases i
    · refine ⟨.InvalidMagicNumber, fromBytes_bad_magic c _ (by simp) ?_⟩
      simp only [List.getD, List.get?, Option.getD] at hb
      simp [List.set, MAGIC_NUMBER]
      exact hb
    · refine ⟨.InvalidMagicNumber, fromBytes_bad_magic c _ (by simp) ?_⟩
      simp only [List.getD, List.get?, Option.getD] at hb
      simp [List.set, MAGIC_NUMBER]
      exact hb
    · refine ⟨.InvalidMagicNumber, fromBytes_bad_magic c _ (by simp) ?_⟩
      simp only [List.getD, List.get?, Option.getD] at hb
      simp [List.set, MAGIC_NUMBER]
      exact hb
    · refine ⟨.InvalidMagicNumber, fromBytes_bad_magic c _ (by simp) ?_⟩
      simp only [List.getD, List.get?, Option.getD] at hb
      simp [List.set, MAGIC_NUMBER]
      exact hb
    · refine ⟨.InvalidSerdeType, ?_⟩
      simp only [List.getD, List.get?, Option.getD] at hb
      have hset : (80 :: 76 :: 85 :: 84 :: 3 :: 1 :: 1 ::
          (natToLeBytes 4 (concatRaw c ck).length ++ concatRaw c ck) :
            List Nat).set 4 b
          = MAGIC_NUMBER ++ b :: 1 :: (1 ::
            (natToLeBytes 4 (concatRaw c ck).length ++ concatRaw c ck)) := rfl
      rw [hset]
      exact fromBytes_bad_type c b 1 _ hb
    · refine ⟨.InvalidSectionCount, ?_⟩
      simp only [List.getD, List.get?, Option.getD] at hb
      have hset : (80 :: 76 :: 85 :: 84 :: 3 :: 1 :: 1 ::
          (natToLeBytes 4 (concatRaw c ck).length ++ concatRaw c ck) :
            List Nat).set 5 b
          = MAGIC_NUMBER ++ 3 :: b :: (1 ::
            (natToLeBytes 4 (concatRaw c ck).length ++ concatRaw c ck)) := rfl
      rw [hset]
      exact fromBytes_bad_count c b _ hb

/-- C8 witness: the validation theorem evaluated on concrete inputs over the
two-byte codec — a corrupted magic byte, a wrong type tag, a wrong section
count, a one-byte section that cannot chunk into two-byte records, and a
corrupted header byte of a valid encoding. -/
theorem commitmentKey_fromBytes_validation_witness :
    commitmentKeyFromBytes pairCodec [9, 76, 85, 84]
        = .error .InvalidMagicNumber
  ∧ commitmentKeyFromBytes pairCodec (MAGIC_NUMBER ++ 9 :: 1 :: [])
        = .error .InvalidSerdeType
  ∧ commitmentKeyFromBytes pairCodec (MAGIC_NUMBER ++ 3 :: 9 :: [])
        = .error .InvalidSectionCount
  ∧ commitmentKeyFromBytes pairCodec
        (MAGIC_NUMBER ++ 3 :: 1 :: 1 :: (natToLeBytes 4 1 ++ [0]))
        = .error .G1DecodeError
  ∧ ∃ e, commitmentKeyFromBytes pairCodec
        ((commitmentKeyToBytes pairCodec [(5 : Fin 256)]).set 0 9)
        = .error e :=
  ⟨(commitmentKey_fromBytes_validation pairCodec).1 [9, 76, 85, 84]
      (by norm_num) (by decide),
   (commitmentKey_fromBytes_validation pairCodec).2.1 9 1 [] (by norm_num),
   (commitmentKey_fromBytes_validation pairCodec).2.2.1 9 [] (by norm_num),
   (commitmentKey_fromBytes_validation pairCodec).2.2.2.1 [0]
      (by norm_num) (by norm_num [pairCodec]),
   (commitmentKey_fromBytes_validation pairCodec).2.2.2.2 [(5 : Fin 256)] 0 9
      (by norm_num) (by decide)⟩

/- ================================================================
   Theorems — Noir synthesis arity assertion (C9)
   ================================================================ -/

/-- C9: for every Noir program whose number of declared return values minus
one does not equal its number of declared public parameters, `synthesize`
aborts fatally (panics) at circuit-shape extraction time — before any proving
work, as shown by the result being `panicked` for every continuation `rest` —
and never reports the mismatch as a recoverable synthesis result.  The two
bounds say that the counts are lengths of in-memory Rust vectors, so they fit
in `usize` (and a public-parameter count can never reach `2 ^ 64 - 1`). -/
theorem noir_arity_mismatch_panics {A : Type} (prog : NoirCircuitShape)
    (rest : SynthesisOutcome A)
    (hret : prog.returnValuesCount < 2 ^ 64)
    (hpub : prog.publicParametersCount < 2 ^ 64 - 1)
    (hmismatch : (prog.returnValuesCount : Int) - 1
      ≠ (prog.publicParametersCount : Int)) :
    NoirProgram.synthesizeModel prog rest = .panicked
  ∧ ∀ r : Except Unit A, NoirProgram.synthesizeModel prog rest ≠ .result r := by
  have hne : usizeWrapSub1 prog.returnValuesCount
      ≠ prog.publicParametersCount := by
    unfold usizeWrapSub1
    omega
  rw [NoirProgram.synthesizeModel, if_neg hne]
  exact ⟨rfl, fun r h => by cases h⟩

/-- C9 witness: a program with three return values and one public parameter
(3 - 1 = 2, not 1) panics during synthesis. -/
theorem noir_arity_mismatch_panics_witness :
    NoirProgram.synthesizeModel ⟨3, 1, 0⟩
      (SynthesisOutcome.result (.ok (0 : Nat))) = .panicked :=
  (noir_arity_mismatch_panics ⟨3, 1, 0⟩ _ (by norm_num) (by norm_num)
    (by norm_num)).1

/- ================================================================
   Theorems — `RecursiveSNARK` state machine (C2, C3, C4, C5, C10)
   ================================================================ -/

/-- C4: whenever `prove_step` returns an error — for every starting state and
every outcome of its fallible sub-computations — the resulting state equals
the pre-call state: no field is partially mutated on the error path. -/
theorem prove_step_error_frame {F RWp RUp LWp LUp RWc RUc BufP BufC : Type}
    (s : RecursiveSNARK F RWp RUp LWp LUp RWc RUc BufP BufC)
    (o : ProveStepOracles F RWp RUp LWp LUp RWc RUc) (e : NovaError)
    (herr : (s.prove_step o).1 = .error e) :
    (s.prove_step o).2 = s := by
  rw [RecursiveSNARK.prove_step] at herr ⊢
  split at herr
  · simp at herr
  · rcases o with ⟨o1, o2, o3, o4, o5, o6, o7, o8, o9, o10, o11⟩
    rcases o1 with e1 | ⟨rU', rW'⟩ <;> try rfl
    all_goals (
      simp_all only []
      rcases o2 with e2 | _ <;> try rfl
      all_goals (
        rcases o3 with _ | _ <;> try rfl
        all_goals (
          rcases o4 with e4 | ⟨rUcE, rWcE⟩ <;> try rfl
          all_goals (
            rcases o5 with e5 | _ <;> try rfl
            all_goals (
              rcases o6 with _ | _ <;> try rfl
              all_goals (
                rcases o7 with e7 | ⟨rUcW, rWcW⟩ <;> try rfl
                all_goals (
                  rcases o8 with e8 | _ <;> try rfl
                  all_goals (
                    rcases o9 with e9 | _ <;> try rfl
                    all_goals (
                      rcases o10 with _ | ⟨lU', lW'⟩ <;> try rfl
                      all_goals (
                        rcases o11 with e11 | zi' <;> try rfl
                        all_goals simp_all))))))))))

/-- C4 witness: a failed primary NIFS proof leaves a concrete state (with
`i = 5`) exactly as it was. -/
theorem prove_step_error_frame_witness :
    (RecursiveSNARK.prove_step
        (⟨[], (), (), (), (), (), (), (), (), 5, []⟩ :
          RecursiveSNARK Bool Unit Unit Unit Unit Unit Unit Unit Unit)
        ⟨.error .UnSat, .ok (), some (), .ok ((), ()), .ok (), some (),
          .ok ((), ()), .ok (), .ok (), some ((), ()), .ok []⟩).2
      = ⟨[], (), (), (), (), (), (), (), (), 5, []⟩ :=
  prove_step_error_frame _ _ .UnSat rfl

/-- C5: every `RecursiveSNARK` built by a successful `new` has step counter
`i = 0`, and every `prove_step` call that returns `Ok` leaves the step counter
at exactly its previous value plus one, for every starting value of `i`. -/
theorem step_counter_invariant {F RWp RUp LWp LUp RWc RUc BufP BufC : Type} :
    (∀ (F_arity : Nat) (z0 : List F)
        (o : NewOracles F RWp RUp LWp LUp RWc RUc BufP BufC)
        (s : RecursiveSNARK F RWp RUp LWp LUp RWc RUc BufP BufC),
        RecursiveSNARK.new F_arity z0 o = .ok s → s.i = 0)
  ∧ (∀ (s : RecursiveSNARK F RWp RUp LWp LUp RWc RUc BufP BufC)
        (o : ProveStepOracles F RWp RUp LWp LUp RWc RUc),
        (s.prove_step o).1 = .ok () → (s.prove_step o).2.i = s.i + 1) := by
  constructor
  · intro F_arity z0 o s hok
    rw [RecursiveSNARK.new] at hok
    split at hok
    · simp at hok
    · obtain ⟨rUc, rWc, synth0, inst0, rUp, rWp, zic, bP, bC⟩ := o
      cases synth0 with
      | error e => simp at hok
      | ok u =>
        cases inst0 with
        | error e => simp at hok
        | ok v =>
          obtain ⟨lU, lW⟩ := v
          cases zic with
          | error e => simp at hok
          | ok zi =>
            cases hok
            rfl
  · intro s o hok
    rw [RecursiveSNARK.prove_step] at hok ⊢
    split at hok <;> rename_i hcond
    · rw [if_pos hcond]
      simp [hcond]
    · rw [if_neg hcond]
      obtain ⟨o1, o2, o3, o4, o5, o6, o7, o8, o9, o10, o11⟩ := o
      cases o1 with
      | error e => simp at hok
      | ok v1 =>
        obtain ⟨rU2, rW2⟩ := v1
        cases o2 with
        | error e => simp at hok
        | ok u2 =>
          cases o3 with
          | none => simp at hok
          | some u3 =>
            cases o4 with
            | error e => simp at hok
            | ok v4 =>
              obtain ⟨rUcE, rWcE⟩ := v4
              cases o5 with
              | error e => simp at hok
              | ok u5 =>
                cases o6 with
                | none => simp at hok
                | some u6 =>
                  cases o7 with
                  | error e => simp at hok
                  | ok v7 =>
                    obtain ⟨rUcW, rWcW⟩ := v7
                    cases o8 with
                    | error e => simp at hok
                    | ok u8 =>
                      cases o9 with
                      | error e => simp at hok
                      | ok u9 =>
                        cases o10 with
                        | none => simp at hok
                        | some v10 =>
                          obtain ⟨lU2, lW2⟩ := v10
                          cases o11 with
                          | error e => simp at hok
                          | ok zi2 => rfl

/-- C5 witness: a successful `new` yields `i = 0`, and a successful
`prove_step` from `i = 5` yields `i = 6`. -/
theorem step_counter_invariant_witness :
    (⟨[], (), (), (), (), (), (), (), (), 0, []⟩ :
        RecursiveSNARK Bool Unit Unit Unit Unit Unit Unit Unit Unit).i = 0
  ∧ (RecursiveSNARK.prove_step
        (⟨[], (), (), (), (), (), (), (), (), 5, []⟩ :
          RecursiveSNARK Bool Unit Unit Unit Unit Unit Unit Unit Unit)
        ⟨.ok ((), ()), .ok (), some (), .ok ((), ()), .ok (), some (),
          .ok ((), ()), .ok (), .ok (), some ((), ()), .ok []⟩).2.i = 5 + 1 :=
  ⟨step_counter_invariant.1 0 []
      ⟨(), (), .ok (), .ok ((), ()), (), (), .ok [], (), ()⟩
      ⟨[], (), (), (), (), (), (), (), (), 0, []⟩ rfl,
   step_counter_invariant.2
      ⟨[], (), (), (), (), (), (), (), (), 5, []⟩
      ⟨.ok ((), ()), .ok (), some (), .ok ((), ()), .ok (), some (),
        .ok ((), ()), .ok (), .ok (), some ((), ()), .ok []⟩ rfl⟩

/-- C10: calling `prove_step` on a state with step counter `i = 0` returns
`Ok` immediately without any folding (for every outcome of the oracles), and
its only state change is setting `i` to `1`: every other field — the initial
input, the running relaxed primary and CycleFold instance/witness pairs, the
latest exact primary instance/witness, the output vector and both resource
buffers — is left exactly as it was. -/
theorem prove_step_base_case {F RWp RUp LWp LUp RWc RUc BufP BufC : Type}
    (s : RecursiveSNARK F RWp RUp LWp LUp RWc RUc BufP BufC)
    (o : ProveStepOracles F RWp RUp LWp LUp RWc RUc) (hz : s.i = 0) :
    (s.prove_step o).1 = .ok ()
  ∧ (s.prove_step o).2.i = 1
  ∧ (s.prove_step o).2.z0_primary = s.z0_primary
  ∧ (s.prove_step o).2.r_W_primary = s.r_W_primary
  ∧ (s.prove_step o).2.r_U_primary = s.r_U_primary
  ∧ (s.prove_step o).2.l_w_primary = s.l_w_primary
  ∧ (s.prove_step o).2.l_u_primary = s.l_u_primary
  ∧ (s.prove_step o).2.r_W_cyclefold = s.r_W_cyclefold
  ∧ (s.prove_step o).2.r_U_cyclefold = s.r_U_cyclefold
  ∧ (s.prove_step o).2.buffer_primary = s.buffer_primary
  ∧ (s.prove_step o).2.buffer_cyclefold = s.buffer_cyclefold
  ∧ (s.prove_step o).2.zi_primary = s.zi_primary := by
  rw [RecursiveSNARK.prove_step, if_pos hz]
  exact ⟨rfl, rfl, rfl, rfl, rfl, rfl, rfl, rfl, rfl, rfl, rfl, rfl⟩

/-- C10 witness: the base-case theorem evaluated at a concrete fresh state,
with an oracle bundle whose primary NIFS result is an error — showing that no
folding outcome is even consulted. -/
theorem prove_step_base_case_witness :
    (RecursiveSNARK.prove_step
        (⟨[true], (), (), (), (), (), (), (), (), 0, [false]⟩ :
          RecursiveSNARK Bool Unit Unit Unit Unit Unit Unit Unit Unit)
        ⟨.error .UnSat, .ok (), some (), .ok ((), ()), .ok (), some (),
          .ok ((), ()), .ok (), .ok (), some ((), ()), .ok []⟩).1 = .ok ()
  ∧ (RecursiveSNARK.prove_step
        (⟨[true], (), (), (), (), (), (), (), (), 0, [false]⟩ :
          RecursiveSNARK Bool Unit Unit Unit Unit Unit Unit Unit Unit)
        ⟨.error .UnSat, .ok (), some (), .ok ((), ()), .ok (), some (),
          .ok ((), ()), .ok (), .ok (), some ((), ()), .ok []⟩).2.i = 1
  ∧ (RecursiveSNARK.prove_step
        (⟨[true], (), (), (), (), (), (), (), (), 0, [false]⟩ :
          RecursiveSNARK Bool Unit Unit Unit Unit Unit Unit Unit Unit)
        ⟨.error .UnSat, .ok (), some (), .ok ((), ()), .ok (), some (),
          .ok ((), ()), .ok (), .ok (), some ((), ()), .ok []⟩).2.zi_primary
      = [false] :=
  ⟨(prove_step_base_case _ _ rfl).1,
   (prove_step_base_case _ _ rfl).2.1,
   (prove_step_base_case
      (⟨[true], (), (), (), (), (), (), (), (), 0, [false]⟩ :
        RecursiveSNARK Bool Unit Unit Unit Unit Unit Unit Unit Unit)
      ⟨.error .UnSat, .ok (), some (), .ok ((), ()), .ok (), some (),
        .ok ((), ()), .ok (), .ok (), some ((), ()), .ok []⟩ rfl).2.2.2.2.2.2.2.2.2.2.2⟩

/-- C2: for every `RecursiveSNARK` state whose final primary instance has at
least two public IO entries (so that the `X[0]` / `X[1]` accesses of the code
are in range), `verify` returns an error whenever `num_steps = 0`, or the
recorded step counter differs from `num_steps`, or `z0` differs from the
stored initial input, or the running relaxed primary instance's `X` does not
have length 2, or either recomputed hash differs from the final primary
instance's `X[0]` / `X[1]`, or any of the three satisfiability results is an
error; and when none of these conditions triggers it returns the stored
output vector `zi_primary`. -/
theorem verify_characterization {F RWp RUp LWp LUp RWc RUc BufP BufC : Type}
    [DecidableEq F]
    (X_rU : RUp → List F) (X_lU : LUp → List F)
    (s : RecursiveSNARK F RWp RUp LWp LUp RWc RUc BufP BufC)
    (num_steps : Nat) (z0 : List F) (h1 h2 : F)
    (r1 r2 r3 : Except NovaError Unit)
    (hlen : 2 ≤ (X_lU s.l_u_primary).length) :
    ((num_steps = 0 ∨ s.i ≠ num_steps ∨ s.z0_primary ≠ z0
        ∨ (X_rU s.r_U_primary).length ≠ 2
        ∨ (X_lU s.l_u_primary).get? 0 ≠ some h1
        ∨ (X_lU s.l_u_primary).get? 1 ≠ some h2
        ∨ r1 ≠ .ok () ∨ r2 ≠ .ok () ∨ r3 ≠ .ok ()) →
      ∃ e, RecursiveSNARK.verify X_rU X_lU s num_steps z0 h1 h2 r1 r2 r3
        = .err e)
  ∧ (¬(num_steps = 0 ∨ s.i ≠ num_steps ∨ s.z0_primary ≠ z0
        ∨ (X_rU s.r_U_primary).length ≠ 2
        ∨ (X_lU s.l_u_primary).get? 0 ≠ some h1
        ∨ (X_lU s.l_u_primary).get? 1 ≠ some h2
        ∨ r1 ≠ .ok () ∨ r2 ≠ .ok () ∨ r3 ≠ .ok ()) →
      RecursiveSNARK.verify X_rU X_lU s num_steps z0 h1 h2 r1 r2 r3
        = .ok s.zi_primary) := by
  have h0 : 0 < (X_lU s.l_u_primary).length := by omega
  have h1l : 1 < (X_lU s.l_u_primary).length := by omega
  have hx0 := List.get?_eq_get h0
  have hx1 := List.get?_eq_get h1l
  constructor
  · intro hcond
    by_cases hearly : num_steps = 0 ∨ s.i ≠ num_steps ∨ s.z0_primary ≠ z0
        ∨ (X_rU s.r_U_primary).length ≠ 2
    · exact ⟨.ProofVerifyError, by
        rw [RecursiveSNARK.verify.eq_def, if_pos hearly]⟩
    · rw [RecursiveSNARK.verify.eq_def, if_neg hearly]
      rw [not_or, not_or, not_or] at hearly
      obtain ⟨hn0, hni, hnz, hnlen⟩ := hearly
      simp only [hx0, hx1]
      by_cases hh1 : h1 ≠ (X_lU s.l_u_primary).get ⟨0, h0⟩
      · exact ⟨.ProofVerifyError, by rw [if_pos hh1]⟩
      · push_neg at hh1
        rw [if_neg (by rw [hh1]; simp)]
        by_cases hh2 : h2 ≠ (X_lU s.l_u_primary).get ⟨1, h1l⟩
        · exact ⟨.ProofVerifyError, by rw [if_pos hh2]⟩
        · push_neg at hh2
          rw [if_neg (by rw [hh2]; simp)]
          rcases hcond with h | h | h | h | h | h | h | h | h
          · exact absurd h hn0
          · exact absurd h hni
          · exact absurd h hnz
          · exact absurd h hnlen
          · rw [hx0, hh1] at h
            simp at h
          · rw [hx1, hh2] at h
            simp at h
          · cases r1 with
            | error e => exact ⟨e, rfl⟩
            | ok u => simp at h
          · cases r1 with
            | error e => exact ⟨e, rfl⟩
            | ok u =>
              cases r2 with
              | error e => exact ⟨e, rfl⟩
              | ok u2 => simp at h
          · cases r1 with
            | error e => exact ⟨e, rfl⟩
            | ok u =>
              cases r2 with
              | error e => exact ⟨e, rfl⟩
              | ok u2 =>
                cases r3 with
                | error e => exact ⟨e, rfl⟩
                | ok u3 => simp at h
  · intro hcond
    push_neg at hcond
    obtain ⟨hn0, hni, hnz, hnlen, hh1, hh2, hr1, hr2, hr3⟩ := hcond
    rw [RecursiveSNARK.verify.eq_def,
      if_neg (by push_neg; exact ⟨hn0, hni, hnz, hnlen⟩)]
    rw [hh1, hh2, hr1, hr2, hr3]
    simp

/-- C2 witness: the characterization applied to a concrete passing state —
all checks succeed and `verify` returns the stored output `[false]`. -/
theorem verify_characterization_witness :
    RecursiveSNARK.verify (fun _ : Unit => [true, true])
        (fun _ : Unit => [true, false])
        (⟨[true], (), (), (), (), (), (), (), (), 2, [false]⟩ :
          RecursiveSNARK Bool Unit Unit Unit Unit Unit Unit Unit Unit)
        2 [true] true false (.ok ()) (.ok ()) (.ok ())
      = .ok [false] :=
  (verify_characterization (fun _ : Unit => [true, true])
      (fun _ : Unit => [true, false])
      ⟨[true], (), (), (), (), (), (), (), (), 2, [false]⟩
      2 [true] true false (.ok ()) (.ok ()) (.ok ())
      (by decide)).2 (by decide)

/-- C3 counterexample: a `verify` run in which all step-count, input, arity
and hash checks pass but the relaxed-primary satisfiability check fails with
`UnSat`; `verify` returns that `UnSat` error unchanged, which is not the
undifferentiated proof-verify error — refuting the claim that every `verify`
error is `ProofVerifyError`. -/
theorem verify_unsat_passthrough :
    RecursiveSNARK.verify (fun _ : Unit => [true, true])
        (fun _ : Unit => [false, false])
        (⟨[], (), (), (), (), (), (), (), (), 1, []⟩ :
          RecursiveSNARK Bool Unit Unit Unit Unit Unit Unit Unit Unit)
        1 [] false false (.error .UnSat) (.ok ()) (.ok ())
      = .err .UnSat ∧ NovaError.UnSat ≠ NovaError.ProofVerifyError := by
  constructor
  · rfl
  · intro h
    cases h

/-- C3 (amended): whenever `verify` returns an error, that error is either
the single undifferentiated proof-verify error — the case for the step-count,
input, arity and hash checks — or it is the error of one of the three
satisfiability checks, propagated unchanged. -/
theorem verify_error_classification {F RWp RUp LWp LUp RWc RUc BufP BufC : Type}
    [DecidableEq F]
    (X_rU : RUp → List F) (X_lU : LUp → List F)
    (s : RecursiveSNARK F RWp RUp LWp LUp RWc RUc BufP BufC)
    (num_steps : Nat) (z0 : List F) (h1 h2 : F)
    (r1 r2 r3 : Except NovaError Unit) (e : NovaError)
    (herr : RecursiveSNARK.verify X_rU X_lU s num_steps z0 h1 h2 r1 r2 r3
      = .err e) :
    e = .ProofVerifyError ∨ r1 = .error e ∨ r2 = .error e ∨ r3 = .error e := by
  rw [RecursiveSNARK.verify.eq_def] at herr
  split at herr
  · cases herr
    exact Or.inl rfl
  · split at herr
    · cases herr
    · split at herr
      · cases herr
        exact Or.inl rfl
      · split at herr
        · cases herr
        · split at herr
          · cases herr
            exact Or.inl rfl
          · split at herr
            · cases herr
              exact Or.inr (Or.inl rfl)
            · split at herr
              · cases herr
                exact Or.inr (Or.inr (Or.inl rfl))
              · split at herr
                · cases herr
                  exact Or.inr (Or.inr (Or.inr rfl))
                · cases herr

/-- C3 witness: the amended classification applied to a concrete run whose
exact-primary satisfiability check fails with `UnSat`. -/
theorem verify_error_classification_witness :
    NovaError.UnSat = NovaError.ProofVerifyError
  ∨ (Except.ok () : Except NovaError Unit) = .error .UnSat
  ∨ (Except.error NovaError.UnSat : Except NovaError Unit) = .error .UnSat
  ∨ (Except.ok () : Except NovaError Unit) = .error .UnSat :=
  verify_error_classification (fun _ : Unit => [true, true])
    (fun _ : Unit => [false, false])
    (⟨[], (), (), (), (), (), (), (), (), 3, [true]⟩ :
      RecursiveSNARK Bool Unit Unit Unit Unit Unit Unit Unit Unit)
    3 [] false false (.ok ()) (.error .UnSat) (.ok ()) .UnSat rfl

/- ================================================================
   Theorems — NIFS folding soundness (C1)
   ================================================================ -/

theorem commit_fold {F G ν : Type} [Field F] [AddCommGroup G] [Module F G]
    [Fintype ν] (ck : ν → G) (v w : ν → F) (r : F) :
    commit ck (fun j => v j + r * w j) = commit ck v + r • commit ck w := by
  unfold commit
  rw [Finset.smul_sum, ← Finset.sum_add_distrib]
  refine Finset.sum_congr rfl fun j _ => ?_
  rw [add_smul, mul_smul]

theorem zVec_fold {F ι κ : Type} [Field F]
    (W1 : ι → F) (u1 : F) (X1 : κ → F) (W2 : ι → F) (X2 : κ → F) (r : F) :
    zVec (fun j => W1 j + r * W2 j) (u1 + r) (fun k => X1 k + r * X2 k)
      = fun v => zVec W1 u1 X1 v + r * zVec W2 1 X2 v := by
  funext v
  rcases v with j | u | k
  · rfl
  · simp [zVec]
  · rfl

/-- C1: for every satisfying relaxed pair `(r_U, r_W)` and satisfying exact
pair `(l_u, l_w)` over the same shape and commitment key, and for every
folding challenge `r`, the folded pair returned by `NIFS::prove` satisfies
the relaxed R1CS relation for that shape — the statement is generic in the
field, group and index types, so it covers both the `PrimaryNIFS` and the
`CycleFoldNIFS` instantiation of the algorithm. -/
theorem nifs_folding_soundness {F G μ ι κ : Type} [Field F] [AddCommGroup G]
    [Module F G] [Fintype μ] [Fintype ι] [Fintype κ]
    (S : R1CSShapeM F μ ι κ) (ckW : ι → G) (ckE : μ → G)
    (U1 : RelaxedR1CSInstanceM F G κ) (W1 : RelaxedR1CSWitnessM F ι μ)
    (U2 : R1CSInstanceM F G κ) (W2 : R1CSWitnessM F ι) (r : F)
    (h1 : relaxedSat S ckW ckE U1 W1) (h2 : exactSat S ckW U2 W2) :
    relaxedSat S ckW ckE (NIFS.prove S ckE U1 W1 U2 W2 r).1
      (NIFS.prove S ckE U1 W1 U2 W2 r).2 := by
  obtain ⟨hmain1, hcW1, hcE1⟩ := h1
  obtain ⟨hmain2, hcW2⟩ := h2
  have hz : zVec (fun j => W1.W j + r * W2.W j) (U1.u + r)
        (fun k => U1.X k + r * U2.X k)
      = fun v => zVec W1.W U1.u U1.X v + r * zVec W2.W 1 U2.X v :=
    zVec_fold W1.W U1.u U1.X W2.W U2.X r
  have hmv : ∀ (M : Matrix μ (ι ⊕ (Unit ⊕ κ)) F) (i : μ),
      M.mulVec (fun v => zVec W1.W U1.u U1.X v + r * zVec W2.W 1 U2.X v) i
        = M.mulVec (zVec W1.W U1.u U1.X) i
          + r * M.mulVec (zVec W2.W 1 U2.X) i := by
    intro M i
    have hsum : (fun v => zVec W1.W U1.u U1.X v + r * zVec W2.W 1 U2.X v)
        = zVec W1.W U1.u U1.X + r • zVec W2.W 1 U2.X := by
      funext v
      simp [Pi.add_apply, Pi.smul_apply, smul_eq_mul]
    rw [hsum, Matrix.mulVec_add, Matrix.mulVec_smul]
    simp [Pi.add_apply, Pi.smul_apply, smul_eq_mul]
  refine ⟨?_, ?_, ?_⟩
  · intro i
    simp only [NIFS.prove, hz, hmv]
    have ha1 := hmain1 i
    have ha2 := hmain2 i
    simp only [crossTermT]
    linear_combination ha1 + r ^ 2 * ha2
  · simp only [NIFS.prove, hcW1, hcW2]
    exact (commit_fold ckW W1.W W2.W r).symm
  · simp only [NIFS.prove, hcE1]
    exact (commit_fold ckE W1.E (crossTermT S U1 W1 U2 W2) r).symm

/-- C1 witness: folding soundness evaluated at a concrete satisfying relaxed
pair (the trivial/default one) and a concrete satisfying exact pair over the
trivial shape, with challenge `r = 1`. -/
theorem nifs_folding_soundness_witness :
    relaxedSat trivialShapeC1 trivialCkW trivialCkE
      (NIFS.prove trivialShapeC1 trivialCkE trivialRU trivialRW trivialLU
        trivialLW 1).1
      (NIFS.prove trivialShapeC1 trivialCkE trivialRU trivialRW trivialLU
        trivialLW 1).2 :=
  nifs_folding_soundness trivialShapeC1 trivialCkW trivialCkE trivialRU
    trivialRW trivialLU trivialLW 1 (by unfold relaxedSat; decide)
    (by unfold exactSat; decide)
